import Mathlib

/-!
Shallow embedding of the scribble-art point-generation and
path-construction pipeline (src/main.py).

Modelling conventions:
* Python/numpy floats are idealised as real numbers (`ℝ`); all the
  comparisons the claims are about are exact.
* A numpy grayscale image (a 2-D `uint8` array) is a `List (List ℕ)` of
  rows; pixel values live in `[0, 255]` but nothing below needs that bound.
* The process-wide numpy RNG is an explicit stream `rng : ℕ → ℝ` together
  with a cursor `pos : ℕ`: `rng pos` is the next uniform draw.
  `np.random.rand(*shape)` fills a matrix in row-major (C) order, so pixel
  `(x, y)` of a `W`-wide image compares against draw `pos + y*W + x`; the
  embedding threads the cursor through the row-major pixel scan, which
  consumes the same draws at the same offsets.
* `math.pow` with real exponent is modelled by `Real.rpow`
  (`math.pow 0 0 = 1` matches `Real.rpow 0 0 = 1`).
* Functions of `connections.py` (not part of the sources) are modelled
  from the spec and marked as such in their doc comments.
-/

open scoped Classical

namespace ScribbleArt

/-- A sampled point `(x, y)` in canvas coordinates, as produced by
`points_tuples = [(p[1], p[0]) for p in points]` in `get_layer_points`. -/
abbrev Point := ℤ × ℤ

/-- A line segment `(start, end)` as accumulated into `lines`. -/
abbrev Segment := Point × Point

/-- Embeds `get_point_thresholds` of src/main.py:
`[math.pow(x, exponent) * prefactor for x in range(no_of_layers)]`.
For a non-positive `no_of_layers`, `range` is empty and the comprehension
body is never evaluated. `math.pow` is modelled by the total `Real.rpow`;
they agree wherever `math.pow` is defined, but CPython raises
`ValueError` at `math.pow(0, exponent)` for a negative exponent (reached
whenever `no_of_layers ≥ 1`), where `Real.rpow` returns `0` — theorems
about runs that must not error therefore assume `0 ≤ exponent`. -/
noncomputable def get_point_thresholds (no_of_layers : ℤ) (exponent prefactor : ℝ) :
    List ℝ :=
  (List.range no_of_layers.toNat).map (fun x => (x : ℝ) ^ exponent * prefactor)

/-- The two masking steps of `get_layer_points`
(`layer[layer <= current_max] = 0` followed by `layer[layer != 0] = 255`)
leave a pixel of value `v` marked (equal to 0) iff `v ≤ current_max` or
`v = 0`: a pixel that is already 0 survives the second mask even when it is
above the cutoff. -/
def pixel_marked (current_max : ℝ) (v : ℕ) : Prop :=
  (v : ℝ) ≤ current_max ∨ v = 0

/-- A pixel of value `v` ends up in the point list of `get_layer_points`
iff it is marked and its uniform draw `r` survives
`layer[random_matrix > point_threshold] = 255`, i.e. `¬ (r > threshold)`,
i.e. `r ≤ threshold`. -/
def pixel_kept (current_max point_threshold : ℝ) (v : ℕ) (r : ℝ) : Prop :=
  pixel_marked current_max v ∧ r ≤ point_threshold

/-- Row-major scan of one image row starting at column `x` of row `y`,
stream cursor at `pos`. Every pixel consumes exactly one draw (numpy
generates `random_matrix` for the whole shape); kept pixels contribute
`(x, y)` (column first, matching the `(p[1], p[0])` swap). Returns the
points of the row in scan order and the advanced cursor. -/
noncomputable def sample_row (current_max point_threshold : ℝ) (rng : ℕ → ℝ) :
    List ℕ → ℕ → ℤ → ℤ → List Point × ℕ
  | [], pos, _, _ => ([], pos)
  | v :: rest, pos, x, y =>
      let tail_result := sample_row current_max point_threshold rng rest (pos + 1) (x + 1) y
      if pixel_kept current_max point_threshold v (rng pos) then
        ((x, y) :: tail_result.1, tail_result.2)
      else
        tail_result

/-- Row-major scan of the whole image starting at row `y`. -/
noncomputable def sample_rows (current_max point_threshold : ℝ) (rng : ℕ → ℝ) :
    List (List ℕ) → ℕ → ℤ → List Point × ℕ
  | [], pos, _ => ([], pos)
  | row :: rest, pos, y =>
      let row_result := sample_row current_max point_threshold rng row pos 0 y
      let rest_result := sample_rows current_max point_threshold rng rest row_result.2 (y + 1)
      (row_result.1 ++ rest_result.1, rest_result.2)

/-- Embeds `get_layer_points` of src/main.py. `np.argwhere(layer == 0)`
lists marked-and-kept pixels in row-major order as `(row, col)`; the
comprehension swaps each to `(col, row) = (x, y)`. The extra `rng`/`pos`
arguments make the implicit global numpy RNG explicit; the returned `ℕ` is
the stream cursor after the call. -/
noncomputable def get_layer_points (current_max point_threshold : ℝ)
    (prepared_image : List (List ℕ)) (rng : ℕ → ℝ) (pos : ℕ) : List Point × ℕ :=
  sample_rows current_max point_threshold rng prepared_image pos 0

/-- Modelled from the spec: `connections.calc_distance` (connections.py is
not among the sources) computes the Euclidean distance between two points
(§4.4 "compute Euclidean distance"). -/
noncomputable def calc_distance (a b : Point) : ℝ :=
  Real.sqrt (((a.1 - b.1) ^ 2 + (a.2 - b.2) ^ 2 : ℤ) : ℝ)

/-- Embeds `get_line_segments_from_points` of src/main.py: for each
consecutive pair of the ordered sequence, append `(start, end)` iff
`connections.calc_distance(start, end) < threshold`. -/
noncomputable def get_line_segments_from_points (neighboring_points : List Point)
    (threshold : ℝ) : List Segment :=
  (neighboring_points.zip neighboring_points.tail).filterMap
    (fun s => if calc_distance s.1 s.2 < threshold then some s else none)

/-- Modelled from the spec: the grid cell of a point is
`(⌊y / cellWidth⌋, ⌊x / cellWidth⌋)` (§4.3, cells visited in row-major
order: ascending cell-y, then ascending cell-x). -/
noncomputable def cell_key (cell_width : ℝ) (p : Point) : ℤ × ℤ :=
  (⌊(p.2 : ℝ) / cell_width⌋, ⌊(p.1 : ℝ) / cell_width⌋)

/-- Row-major (lexicographic) comparison of grid cells. -/
noncomputable def cell_le (cell_width : ℝ) (p q : Point) : Prop :=
  (cell_key cell_width p).1 < (cell_key cell_width q).1 ∨
    ((cell_key cell_width p).1 = (cell_key cell_width q).1 ∧
      (cell_key cell_width p).2 ≤ (cell_key cell_width q).2)

/-- Modelled from the spec: `connections.get_neighboring_points`
(connections.py is not among the sources) partitions the points into
square cells of side `cell_width` and flattens them by visiting cells in
row-major order, keeping the sampler's discovery order inside each cell
(§4.3). A stable sort by the cell key realises exactly that order. -/
noncomputable def get_neighboring_points (points : List Point) (cell_width : ℝ)
    (_xmax _ymax : ℕ) : List Point :=
  points.insertionSort (cell_le cell_width)

/-- Embeds `gray_value_step = 255.0 / len(point_thresholds)` of
`create_scribble_art`. Lean's division is total (`255 / 0 = 0`) while
Python raises `ZeroDivisionError` when the schedule is empty
(`no_of_layers ≤ 0`) — theorems about runs that must not error therefore
assume `1 ≤ no_of_layers`, where both agree. -/
noncomputable def gray_value_step (layer_count : ℕ) : ℝ :=
  255 / layer_count

/-- Embeds `current_max = 255.0 - (layer_index + 1.0) * gray_value_step`
of `create_scribble_art`: the darkness cutoff of a layer. -/
noncomputable def current_max_value (gray_step : ℝ) (layer_index : ℕ) : ℝ :=
  255 - ((layer_index : ℝ) + 1) * gray_step

/-- Embeds the per-layer cell width of `create_scribble_art`:
`avg_distance = sqrt(float(xmax * ymax) / len(points))`,
`cell_width = min(avg_distance, max_distance)`. -/
noncomputable def layer_cell_width (xmax ymax : ℕ) (max_distance : ℝ)
    (point_count : ℕ) : ℝ :=
  min (Real.sqrt ((xmax * ymax : ℕ) / (point_count : ℝ))) max_distance

/-- Embeds one iteration of the layer loop of `create_scribble_art`:
sample the layer; if it yielded more than one point, order the points and
build this layer's segments, otherwise contribute nothing. The advanced
RNG cursor is returned either way (the random matrix was drawn). -/
noncomputable def layer_step (prepared_image : List (List ℕ)) (xmax ymax : ℕ)
    (gray_step max_distance : ℝ) (rng : ℕ → ℝ) (layer_index : ℕ)
    (point_threshold : ℝ) (pos : ℕ) : List Segment × ℕ :=
  let result := get_layer_points (current_max_value gray_step layer_index)
    point_threshold prepared_image rng pos
  if 1 < result.1.length then
    let cw := layer_cell_width xmax ymax max_distance result.1.length
    (get_line_segments_from_points
      (get_neighboring_points result.1 cw xmax ymax) cw, result.2)
  else
    ([], result.2)

/-- Embeds `for layer_index in range(no_of_layers)` of
`create_scribble_art`: layers processed in ascending index order, each
layer's segments appended (`lines += ...`) after the previous ones. -/
noncomputable def layers_loop (prepared_image : List (List ℕ)) (xmax ymax : ℕ)
    (gray_step max_distance : ℝ) (rng : ℕ → ℝ) :
    ℕ → List ℝ → ℕ → List Segment × ℕ
  | _, [], pos => ([], pos)
  | layer_index, point_threshold :: rest, pos =>
      let this_layer := layer_step prepared_image xmax ymax gray_step max_distance
        rng layer_index point_threshold pos
      let rest_result := layers_loop prepared_image xmax ymax gray_step max_distance
        rng (layer_index + 1) rest this_layer.2
      (this_layer.1 ++ rest_result.1, rest_result.2)

/-- Embeds the core of `create_scribble_art` of src/main.py (the I/O —
config file, image loading, preview, output files — stripped away):
compute the schedule, then accumulate every layer's segments into `lines`.
`xmax, ymax = prepared_image.shape[1], prepared_image.shape[0]`. -/
noncomputable def create_scribble_art (prepared_image : List (List ℕ))
    (no_of_layers : ℤ) (exponent prefactor max_line_length_factor : ℝ)
    (rng : ℕ → ℝ) : List Segment :=
  let point_thresholds := get_point_thresholds no_of_layers exponent prefactor
  let xmax := prepared_image.headI.length
  let ymax := prepared_image.length
  let gray_step := gray_value_step point_thresholds.length
  let max_distance := max_line_length_factor * ((min xmax ymax : ℕ) : ℝ)
  (layers_loop prepared_image xmax ymax gray_step max_distance rng 0
    point_thresholds 0).1

/-- Embeds `set_seeds_of_rngs` of src/main.py: seeding the global RNGs
selects one deterministic draw stream. `gen` abstracts the RNG algorithm
(numpy's Mersenne Twister is not modelled): it maps a seed to its stream. -/
def set_seeds_of_rngs (gen : ℤ → ℕ → ℝ) (seed : ℤ) : ℕ → ℝ :=
  gen seed

/-- One full run of the pipeline: seed the RNG, then create the scribble
art. This is the composition `main` performs around the core. -/
noncomputable def scribble_run (gen : ℤ → ℕ → ℝ) (seed : ℤ)
    (prepared_image : List (List ℕ)) (no_of_layers : ℤ)
    (exponent prefactor max_line_length_factor : ℝ) : List Segment :=
  create_scribble_art prepared_image no_of_layers exponent prefactor
    max_line_length_factor (set_seeds_of_rngs gen seed)

/-! ### Stream-cursor accounting of the sampler -/

lemma sample_row_pos (c p : ℝ) (rng : ℕ → ℝ) :
    ∀ (row : List ℕ) (pos : ℕ) (x y : ℤ),
      (sample_row c p rng row pos x y).2 = pos + row.length := by
  intro row
  induction row with
  | nil => intro pos x y; simp [sample_row]
  | cons v rest ih =>
      intro pos x y
      by_cases h : pixel_kept c p v (rng pos) <;>
        simp [sample_row, h, ih] <;> omega

lemma sample_rows_pos (c p : ℝ) (rng : ℕ → ℝ) :
    ∀ (rows : List (List ℕ)) (pos : ℕ) (y : ℤ),
      (sample_rows c p rng rows pos y).2 = pos + (rows.map List.length).sum := by
  intro rows
  induction rows with
  | nil => intro pos y; simp [sample_rows]
  | cons row rest ih =>
      intro pos y
      simp [sample_rows, ih, sample_row_pos]
      omega

lemma get_layer_points_pos (c p : ℝ) (img : List (List ℕ)) (rng : ℕ → ℝ) (pos : ℕ) :
    (get_layer_points c p img rng pos).2 = pos + (img.map List.length).sum := by
  simp [get_layer_points, sample_rows_pos]

/-! ### Membership characterisation of the sampler -/

lemma mem_sample_row (c p : ℝ) (rng : ℕ → ℝ) :
    ∀ (row : List ℕ) (pos : ℕ) (x y : ℤ) (q : Point),
      q ∈ (sample_row c p rng row pos x y).1 ↔
        ∃ j : ℕ, j < row.length ∧ q = (x + (j : ℤ), y) ∧
          pixel_kept c p (row.getD j 0) (rng (pos + j)) := by
  intro row
  induction row with
  | nil => intro pos x y q; simp [sample_row]
  | cons v rest ih =>
      intro pos x y q
      by_cases h : pixel_kept c p v (rng pos)
      · simp only [sample_row, if_pos h, List.mem_cons]
        constructor
        · rintro (rfl | hq)
          · exact ⟨0, by simp, by simp, by simpa using h⟩
          · obtain ⟨j, hj, rfl, hk⟩ := (ih (pos + 1) (x + 1) y q).mp hq
            refine ⟨j + 1, by simpa using hj, by push_cast; ring_nf, ?_⟩
            rw [List.getD_cons_succ, show pos + (j + 1) = pos + 1 + j by omega]
            exact hk
        · rintro ⟨j, hj, rfl, hk⟩
          cases j with
          | zero => left; simp
          | succ j =>
              right
              refine (ih (pos + 1) (x + 1) y _).mpr ⟨j, by simpa using hj, by push_cast; ring_nf, ?_⟩
              rw [show pos + 1 + j = pos + (j + 1) by omega]
              simpa using hk
      · simp only [sample_row, if_neg h]
        rw [ih (pos + 1) (x + 1) y q]
        constructor
        · rintro ⟨j, hj, rfl, hk⟩
          refine ⟨j + 1, by simpa using hj, by push_cast; ring_nf, ?_⟩
          rw [List.getD_cons_succ, show pos + (j + 1) = pos + 1 + j by omega]
          exact hk
        · rintro ⟨j, hj, rfl, hk⟩
          cases j with
          | zero => exact absurd (by simpa using hk) h
          | succ j =>
              refine ⟨j, by simpa using hj, by push_cast; ring_nf, ?_⟩
              rw [show pos + 1 + j = pos + (j + 1) by omega]
              simpa using hk

lemma mem_sample_rows (c p : ℝ) (rng : ℕ → ℝ) :
    ∀ (rows : List (List ℕ)) (pos : ℕ) (y : ℤ) (q : Point),
      q ∈ (sample_rows c p rng rows pos y).1 ↔
        ∃ i j : ℕ, i < rows.length ∧ j < (rows.getD i []).length ∧
          q = ((j : ℤ), y + (i : ℤ)) ∧
          pixel_kept c p ((rows.getD i []).getD j 0)
            (rng (pos + ((rows.take i).map List.length).sum + j)) := by
  intro rows
  induction rows with
  | nil => intro pos y q; simp [sample_rows]
  | cons row rest ih =>
      intro pos y q
      simp only [sample_rows, List.mem_append, mem_sample_row, sample_row_pos,
        ih (pos + row.length) (y + 1) q]
      constructor
      · rintro (⟨j, hj, rfl, hk⟩ | ⟨i, j, hi, hj, rfl, hk⟩)
        · exact ⟨0, j, by simp, by simpa using hj, by simp,
            by simpa using hk⟩
        · refine ⟨i + 1, j, by simpa using hi, by simpa using hj,
            by push_cast; ring_nf, ?_⟩
          rw [show ((row :: rest).take (i + 1)).map List.length =
              row.length :: (rest.take i).map List.length by simp]
          rw [List.sum_cons,
            show pos + (row.length + ((rest.take i).map List.length).sum) + j =
              pos + row.length + ((rest.take i).map List.length).sum + j by omega]
          simpa using hk
      · rintro ⟨i, j, hi, hj, rfl, hk⟩
        cases i with
        | zero =>
            left
            exact ⟨j, by simpa using hj, by simp, by simpa using hk⟩
        | succ i =>
            right
            refine ⟨i, j, by simpa using hi, by simpa using hj,
              by push_cast; ring_nf, ?_⟩
            rw [show pos + row.length + ((rest.take i).map List.length).sum + j =
                pos + (row.length + ((rest.take i).map List.length).sum) + j by omega]
            simpa using hk

lemma mem_get_layer_points (c p : ℝ) (img : List (List ℕ)) (rng : ℕ → ℝ)
    (pos : ℕ) (q : Point) :
    q ∈ (get_layer_points c p img rng pos).1 ↔
      ∃ i j : ℕ, i < img.length ∧ j < (img.getD i []).length ∧
        q = ((j : ℤ), (i : ℤ)) ∧
        pixel_kept c p ((img.getD i []).getD j 0)
          (rng (pos + ((img.take i).map List.length).sum + j)) := by
  simp [get_layer_points, mem_sample_rows]

/-- In a rectangular image every row has length `W`, so the row-major
offset of row `i` is `i * W`. -/
lemma rect_take_sum :
    ∀ (rows : List (List ℕ)) (W i : ℕ), (∀ row ∈ rows, row.length = W) →
      i ≤ rows.length → ((rows.take i).map List.length).sum = i * W := by
  intro rows
  induction rows with
  | nil =>
      intro W i _ hi
      have hz : i = 0 := by simpa using hi
      subst hz
      simp
  | cons r rest ih =>
      intro W i h hi
      cases i with
      | zero => simp
      | succ i =>
          rw [List.take_succ_cons, List.map_cons, List.sum_cons,
            h r (by simp), ih W i (fun row hr => h row (by simp [hr])) (by simpa using hi)]
          ring

/-! ### Claim C1 -/

/-- C1 is false as stated: in `get_layer_points` the random matrix
`np.random.rand(*prepared_image.shape)` consumes one draw for every
pixel of the field, not only for qualifying ones. Concretely, for the
1×1 field `[[255]]` with cutoff `0`, the single pixel is not a sampling
candidate (255 is neither ≤ 0 nor equal to 0), yet the stream cursor
advances from 0 to 1: an above-cutoff pixel consumed a draw. -/
theorem C1_counterexample :
    (get_layer_points 0 (1/2) [[255]] (fun _ => 0) 0).2 = 1 ∧
      ¬ pixel_marked 0 255 := by
  constructor
  · norm_num [get_layer_points, sample_rows, sample_row, pixel_kept, pixel_marked]
  · norm_num [pixel_marked]

/-- C1 amended: during sampling of one layer, exactly one uniform draw is
consumed per pixel of the field — qualifying or not — in row-major scan
order: the stream cursor advances by exactly the total pixel count
(width x height), independently of the cutoff and the threshold. -/
theorem C1_amended_one_draw_per_pixel (c p : ℝ) (img : List (List ℕ))
    (rng : ℕ → ℝ) (pos : ℕ) :
    (get_layer_points c p img rng pos).2 = pos + (img.map List.length).sum :=
  get_layer_points_pos c p img rng pos

/-! ### Claim C2 -/

/-- C2 is false as stated: `get_point_thresholds` performs no validation.
Called with a non-positive layer count it raises nothing and returns the
empty schedule (the total function is defined there and yields `[]`),
contradicting "it does not return a (possibly empty) schedule". -/
theorem C2_counterexample :
    get_point_thresholds (-3) 2 5 = [] ∧ get_point_thresholds 0 2 5 = [] :=
  ⟨rfl, rfl⟩

/-- C2 amended: calling the threshold planner with a non-positive layer
count raises no error and returns the empty schedule (`range` of a
non-positive count is empty). -/
theorem C2_amended_empty_schedule (n : ℤ) (hn : n ≤ 0) (exponent prefactor : ℝ) :
    get_point_thresholds n exponent prefactor = [] := by
  unfold get_point_thresholds
  rw [Int.toNat_of_nonpos hn]
  simp

/-- Witness for the amended C2 at layer count `-7`. -/
theorem C2_amended_empty_schedule_witness :
    get_point_thresholds (-7) 1 2 = [] :=
  C2_amended_empty_schedule (-7) (by norm_num) 1 2

/-! ### Claim C3 -/

/-- C3 is false as stated: the random mask keeps a marked pixel iff
`¬ (r > probability)`, i.e. `r ≤ probability`, not `r < probability`.
For the 1×1 field `[[0]]` with cutoff `0`, probability `0` and the draw
`r = 0` (a legal value of `[0,1)`), the pixel is included although
`r < probability` fails — which also refutes "probability ≤ 0 yields an
empty sampled set". -/
theorem C3_counterexample :
    ((0 : ℤ), (0 : ℤ)) ∈ (get_layer_points 0 0 [[0]] (fun _ => 0) 0).1 ∧
      ¬ ((0 : ℝ) < 0) := by
  constructor
  · norm_num [get_layer_points, sample_rows, sample_row, pixel_kept, pixel_marked]
  · norm_num

/-- C3 amended: for a W-wide field and draws in `[0,1)`, a qualifying
pixel (value ≤ cutoff) at column `j` of row `i` is included iff its draw
`rng (pos + i*W + j)` satisfies `r ≤ probability`; `probability < 0`
yields an empty sampled set; `probability ≥ 1` includes every qualifying
pixel. -/
theorem C3_amended_acceptance (img : List (List ℕ)) (W : ℕ)
    (hW : ∀ row ∈ img, row.length = W) (c p : ℝ) (rng : ℕ → ℝ)
    (hr : ∀ k, 0 ≤ rng k ∧ rng k < 1) (pos : ℕ) :
    (∀ i j : ℕ, i < img.length → j < W →
      (((img.getD i []).getD j 0 : ℝ) ≤ c →
        ((((j : ℤ), (i : ℤ)) ∈ (get_layer_points c p img rng pos).1) ↔
          rng (pos + i * W + j) ≤ p))) ∧
    (p < 0 → (get_layer_points c p img rng pos).1 = []) ∧
    (1 ≤ p → ∀ i j : ℕ, i < img.length → j < W →
      (((img.getD i []).getD j 0 : ℝ) ≤ c →
        (((j : ℤ), (i : ℤ)) ∈ (get_layer_points c p img rng pos).1))) := by
  have key : ∀ i j : ℕ, i < img.length → j < W →
      ((((j : ℤ), (i : ℤ)) ∈ (get_layer_points c p img rng pos).1) ↔
        pixel_kept c p ((img.getD i []).getD j 0) (rng (pos + i * W + j))) := by
    intro i j hi hj
    rw [mem_get_layer_points]
    have hrow : (img.getD i []).length = W := by
      rw [List.getD_eq_getElem _ _ hi]
      exact hW _ (List.getElem_mem hi)
    constructor
    · rintro ⟨i', j', hi', hj', heq, hk⟩
      have hj'' : j' = j := by
        have h1 : (j : ℤ) = (j' : ℤ) := congrArg Prod.fst heq
        exact_mod_cast h1.symm
      have hi'' : i' = i := by
        have h2 : (i : ℤ) = (i' : ℤ) := congrArg Prod.snd heq
        exact_mod_cast h2.symm
      subst hj'' hi''
      rwa [rect_take_sum img W i' hW hi'.le] at hk
    · intro hk
      refine ⟨i, j, hi, by rw [hrow]; exact hj, rfl, ?_⟩
      rwa [rect_take_sum img W i hW hi.le]
  refine ⟨?_, ?_, ?_⟩
  · intro i j hi hj hq
    rw [key i j hi hj]
    unfold pixel_kept
    exact and_iff_right (Or.inl hq)
  · intro hp
    rw [List.eq_nil_iff_forall_not_mem]
    intro q hq
    rw [mem_get_layer_points] at hq
    obtain ⟨i, j, _, _, _, _, hk⟩ := hq
    have := (hr (pos + ((img.take i).map List.length).sum + j)).1
    linarith
  · intro hp i j hi hj hq
    rw [key i j hi hj]
    exact ⟨Or.inl hq, le_of_lt (lt_of_lt_of_le (hr _).2 hp)⟩

/-- Witness for the amended C3: on the 1×1 field `[[0]]` with cutoff 0,
probability 1 and constant draw 1/2, the qualifying pixel is included. -/
theorem C3_amended_acceptance_witness :
    ((0 : ℤ), (0 : ℤ)) ∈ (get_layer_points 0 1 [[0]] (fun _ => (1/2 : ℝ)) 0).1 := by
  have h := C3_amended_acceptance [[0]] 1 (by simp) 0 1 (fun _ => (1/2 : ℝ))
    (fun k => by norm_num) 0
  exact h.2.2 le_rfl 0 0 (by norm_num) (by norm_num) (by simp)

/-! ### Claim C4 -/

/-- Every layer's point set of an all-empty image is empty: no pixel
exists to be sampled. -/
lemma get_layer_points_empty_img (img : List (List ℕ))
    (himg : ∀ row ∈ img, row.length = 0) (c p : ℝ) (rng : ℕ → ℝ) (pos : ℕ) :
    (get_layer_points c p img rng pos).1 = [] := by
  rw [List.eq_nil_iff_forall_not_mem]
  intro q hq
  rw [mem_get_layer_points] at hq
  obtain ⟨i, j, hi, hj, _, _⟩ := hq
  rw [List.getD_eq_getElem _ _ hi, himg _ (List.getElem_mem hi)] at hj
  omega

/-- A layer loop over an image whose layers all sample empty point sets
accumulates no segments. -/
lemma layers_loop_empty_img (img : List (List ℕ))
    (himg : ∀ row ∈ img, row.length = 0) (xmax ymax : ℕ) (gs maxd : ℝ)
    (rng : ℕ → ℝ) :
    ∀ (ts : List ℝ) (i pos : ℕ),
      (layers_loop img xmax ymax gs maxd rng i ts pos).1 = [] := by
  intro ts
  induction ts with
  | nil => intro i pos; simp [layers_loop]
  | cons t rest ih =>
      intro i pos
      simp [layers_loop, layer_step, get_layer_points_empty_img img himg, ih]

/-- C4 is false as stated: nothing in the pipeline validates the field.
On the empty density field the run raises no error and silently produces
an empty point set and an empty scribble path. -/
theorem C4_counterexample :
    create_scribble_art [] 1 1 1 (1/2) (fun _ => 0) = [] ∧
      (get_layer_points 100 1 [] (fun _ => 0) 0).1 = [] := by
  constructor
  · norm_num [create_scribble_art, get_point_thresholds, List.range_succ,
      layers_loop, layer_step, get_layer_points, sample_rows]
  · simp [get_layer_points, sample_rows]

/-- C4 amended: given an empty or zero-dimension density field (no rows,
or only zero-width rows), a positive layer count and a non-negative
exponent — the range on which no statement of the program errors (for
`no_of_layers ≤ 0` the driver raises `ZeroDivisionError` at
`255.0 / len(point_thresholds)`, and for a negative exponent the planner
raises `ValueError` at `math.pow(0, exponent)`) — the pipeline raises no
error; every layer's sampled point set is empty and the resulting
scribble path is the empty segment list. -/
theorem C4_amended_silent_empty (img : List (List ℕ))
    (himg : ∀ row ∈ img, row.length = 0) (n : ℤ) (hn : 1 ≤ n)
    (exponent : ℝ) (hexp : 0 ≤ exponent)
    (prefactor max_line_length_factor : ℝ) (rng : ℕ → ℝ) :
    create_scribble_art img n exponent prefactor max_line_length_factor rng = [] ∧
      ∀ (c p : ℝ) (pos : ℕ), (get_layer_points c p img rng pos).1 = [] := by
  constructor
  · simp [create_scribble_art, layers_loop_empty_img img himg]
  · intro c p pos
    exact get_layer_points_empty_img img himg c p rng pos

/-- Witness for the amended C4 on the two-row zero-width field with two
layers and exponent 3. -/
theorem C4_amended_silent_empty_witness :
    create_scribble_art [[], []] 2 3 4 5 (fun _ => 0) = [] ∧
      ∀ (c p : ℝ) (pos : ℕ),
        (get_layer_points c p [[], []] (fun _ => 0) pos).1 = [] :=
  C4_amended_silent_empty [[], []] (by simp) 2 (by norm_num) 3 (by norm_num)
    4 5 (fun _ => 0)

/-! ### Claim C5 -/

/-- C5 is false as stated: a pixel of value 0 is sampled even when its
value is not ≤ the cutoff. On the 1×1 field `[[0]]` with the negative
cutoff `-1` and an always-accepting draw, the point `(0, 0)` is sampled
although its density value 0 is not ≤ -1 (the first mask writes the value
0 on below-cutoff pixels, and the second mask then treats the pixel's
original 0 as marked). -/
theorem C5_counterexample :
    ((0 : ℤ), (0 : ℤ)) ∈ (get_layer_points (-1) 1 [[0]] (fun _ => 0) 0).1 ∧
      ¬ ((0 : ℝ) ≤ -1) := by
  constructor
  · norm_num [get_layer_points, sample_rows, sample_row, pixel_kept, pixel_marked]
  · norm_num

/-- C5 amended: for every non-negative cutoff (which covers every cutoff
the driver produces), every point returned by the sampler lies at a pixel
whose density value is ≤ the cutoff. -/
theorem C5_amended_sampling_validity (c : ℝ) (hc : 0 ≤ c) (p : ℝ)
    (img : List (List ℕ)) (rng : ℕ → ℝ) (pos : ℕ) :
    ∀ q ∈ (get_layer_points c p img rng pos).1,
      ∃ i j : ℕ, i < img.length ∧ j < (img.getD i []).length ∧
        q = ((j : ℤ), (i : ℤ)) ∧ (((img.getD i []).getD j 0 : ℕ) : ℝ) ≤ c := by
  intro q hq
  rw [mem_get_layer_points] at hq
  obtain ⟨i, j, hi, hj, hqeq, hk, _⟩ := hq
  refine ⟨i, j, hi, hj, hqeq, ?_⟩
  rcases hk with hle | hzero
  · exact hle
  · rw [hzero]
    simpa using hc

/-- Witness for the amended C5 on the 1×1 field `[[0]]` with cutoff 0. -/
theorem C5_amended_sampling_validity_witness :
    ∃ i j : ℕ, i < ([[0]] : List (List ℕ)).length ∧
      j < (([[0]] : List (List ℕ)).getD i []).length ∧
      ((0 : ℤ), (0 : ℤ)) = ((j : ℤ), (i : ℤ)) ∧
      (((([[0]] : List (List ℕ)).getD i []).getD j 0 : ℕ) : ℝ) ≤ 0 := by
  refine C5_amended_sampling_validity 0 le_rfl 1 [[0]] (fun _ => 0) 0
    ((0 : ℤ), (0 : ℤ)) ?_
  norm_num [get_layer_points, sample_rows, sample_row, pixel_kept, pixel_marked]

/-! ### Claim C6 -/

/-- Each consecutive pair of a list is an element of the list zipped with
its own tail. -/
lemma pair_mem_zip_tail {α : Type} :
    ∀ (l : List α) (i : ℕ) (h : i + 1 < l.length),
      (l.get ⟨i, Nat.lt_of_succ_lt h⟩, l.get ⟨i + 1, h⟩) ∈ l.zip l.tail := by
  intro l
  induction l with
  | nil => intro i h; simp at h
  | cons a rest ih =>
      intro i h
      cases rest with
      | nil => simp at h
      | cons b r =>
          cases i with
          | zero => simp [List.zip_cons_cons]
          | succ i =>
              have h' : i + 1 < (b :: r).length := by simpa using h
              simp only [List.tail_cons, List.zip_cons_cons, List.mem_cons,
                List.get_cons_succ]
              right
              simpa using ih i h'

/-- C6: the segment builder emits the consecutive pair `(p_i, p_i+1)` iff
their Euclidean distance is strictly below the cell width, and every
emitted segment's Euclidean length is below the cell width; over-threshold
pairs are simply dropped (the builder is total). -/
theorem C6_segment_filter (pts : List Point) (t : ℝ) (ht : 0 < t) :
    (∀ s ∈ get_line_segments_from_points pts t, calc_distance s.1 s.2 < t) ∧
    (∀ (i : ℕ) (h : i + 1 < pts.length),
      ((pts.get ⟨i, Nat.lt_of_succ_lt h⟩, pts.get ⟨i + 1, h⟩) ∈
          get_line_segments_from_points pts t ↔
        calc_distance (pts.get ⟨i, Nat.lt_of_succ_lt h⟩) (pts.get ⟨i + 1, h⟩) < t)) := by
  have hlen : ∀ s ∈ get_line_segments_from_points pts t, calc_distance s.1 s.2 < t := by
    intro s hs
    obtain ⟨a, _, hsome⟩ := List.mem_filterMap.mp hs
    by_cases hd : calc_distance a.1 a.2 < t
    · rw [if_pos hd] at hsome
      obtain rfl := Option.some.inj hsome
      exact hd
    · rw [if_neg hd] at hsome
      exact absurd hsome (by simp)
  refine ⟨hlen, ?_⟩
  intro i h
  constructor
  · intro hmem
    exact hlen (pts.get ⟨i, Nat.lt_of_succ_lt h⟩, pts.get ⟨i + 1, h⟩) hmem
  · intro hd
    exact List.mem_filterMap.mpr
      ⟨(pts.get ⟨i, Nat.lt_of_succ_lt h⟩, pts.get ⟨i + 1, h⟩),
        pair_mem_zip_tail pts i h, if_pos hd⟩

/-- Concrete two-point sequence used by the C6 witness. -/
def c6_points : List Point := [((0 : ℤ), (0 : ℤ)), ((0 : ℤ), (1 : ℤ))]

/-- Witness for C6 at the two-point list `[(0,0), (0,1)]` and cell width 5. -/
theorem C6_segment_filter_witness :
    (0 : ℝ) < 5 ∧
      ((∀ s ∈ get_line_segments_from_points c6_points 5, calc_distance s.1 s.2 < 5) ∧
        (∀ (i : ℕ) (h : i + 1 < c6_points.length),
          ((c6_points.get ⟨i, Nat.lt_of_succ_lt h⟩, c6_points.get ⟨i + 1, h⟩) ∈
              get_line_segments_from_points c6_points 5 ↔
            calc_distance (c6_points.get ⟨i, Nat.lt_of_succ_lt h⟩)
              (c6_points.get ⟨i + 1, h⟩) < 5))) :=
  ⟨by norm_num, C6_segment_filter c6_points 5 (by norm_num)⟩

/-! ### Claim C7 -/

/-- C7: the darkness cutoff of layer `i` equals
`255 − (i + 1) * (255 / layerCount)` and cutoffs are strictly decreasing
in the layer index whenever `layerCount > 1`. -/
theorem C7_cutoff_schedule (n : ℕ) (hn : 1 < n) (i : ℕ) (hi : i + 1 < n) :
    current_max_value (gray_value_step n) i = 255 - ((i : ℝ) + 1) * (255 / (n : ℝ)) ∧
    current_max_value (gray_value_step n) (i + 1) < current_max_value (gray_value_step n) i := by
  constructor
  · rfl
  · unfold current_max_value gray_value_step
    have hn0 : (0 : ℝ) < (n : ℝ) := by
      exact_mod_cast Nat.lt_of_lt_of_le Nat.zero_lt_one hn.le
    have hstep : (0 : ℝ) < 255 / (n : ℝ) := by positivity
    push_cast
    nlinarith [hstep]

/-- Witness for C7 at two layers, first layer index. -/
theorem C7_cutoff_schedule_witness :
    current_max_value (gray_value_step 2) 0 =
        255 - (((0 : ℕ) : ℝ) + 1) * (255 / ((2 : ℕ) : ℝ)) ∧
      current_max_value (gray_value_step 2) 1 < current_max_value (gray_value_step 2) 0 :=
  C7_cutoff_schedule 2 (by norm_num) 0 (by norm_num)

/-! ### Claim C8 -/

/-- C8: a layer whose sampled point count is 0 or 1 contributes zero
segments and raises no error: the driver takes the skip branch (no grid,
no path work) and continues with the next layer at the advanced RNG
cursor, and the segment builder on any sequence of length < 2 returns the
empty list. -/
theorem C8_degenerate_layer (img : List (List ℕ)) (xmax ymax : ℕ)
    (gs maxd : ℝ) (rng : ℕ → ℝ) (i : ℕ) (t : ℝ) (pos : ℕ) (ts : List ℝ)
    (h : (get_layer_points (current_max_value gs i) t img rng pos).1.length ≤ 1) :
    layer_step img xmax ymax gs maxd rng i t pos =
        ([], (get_layer_points (current_max_value gs i) t img rng pos).2) ∧
      (layers_loop img xmax ymax gs maxd rng i (t :: ts) pos).1 =
        (layers_loop img xmax ymax gs maxd rng (i + 1) ts
          (get_layer_points (current_max_value gs i) t img rng pos).2).1 ∧
      (∀ (pts : List Point) (w : ℝ), pts.length < 2 →
        get_line_segments_from_points pts w = []) := by
  have hstep : layer_step img xmax ymax gs maxd rng i t pos =
      ([], (get_layer_points (current_max_value gs i) t img rng pos).2) := by
    unfold layer_step
    rw [if_neg (by omega)]
  refine ⟨hstep, ?_, ?_⟩
  · simp [layers_loop, hstep]
  · intro pts w hlen
    match pts with
    | [] => rfl
    | [_] => rfl
    | a :: b :: r => simp at hlen; omega

/-- Witness for C8: the 1×1 field `[[255]]` with one layer (cutoff 0)
samples no point, so the layer contributes nothing. -/
theorem C8_degenerate_layer_witness :
    (get_layer_points (current_max_value 255 0) 1 [[255]] (fun _ => 0) 0).1.length ≤ 1 ∧
      (layer_step [[255]] 1 1 255 1 (fun _ => 0) 0 1 0 =
          ([], (get_layer_points (current_max_value 255 0) 1 [[255]] (fun _ => 0) 0).2) ∧
        (layers_loop [[255]] 1 1 255 1 (fun _ => 0) 0 [1] 0).1 =
          (layers_loop [[255]] 1 1 255 1 (fun _ => 0) 1 []
            (get_layer_points (current_max_value 255 0) 1 [[255]] (fun _ => 0) 0).2).1 ∧
        (∀ (pts : List Point) (w : ℝ), pts.length < 2 →
          get_line_segments_from_points pts w = [])) := by
  have h : (get_layer_points (current_max_value 255 0) 1 [[255]] (fun _ => 0) 0).1.length ≤ 1 := by
    norm_num [get_layer_points, sample_rows, sample_row, pixel_kept, pixel_marked,
      current_max_value]
  exact ⟨h, C8_degenerate_layer [[255]] 1 1 255 1 (fun _ => 0) 0 1 0 [] h⟩

/-! ### Claim C9 -/

/-- C9: the pipeline is deterministic — the seed selects the draw stream
and the scribble path is a pure function of the seed, the density field
and the schedule parameters, so two runs on identical inputs produce
identical segment sequences. -/
theorem C9_determinism (gen : ℤ → ℕ → ℝ) (img₁ img₂ : List (List ℕ))
    (n₁ n₂ : ℤ) (e₁ e₂ pf₁ pf₂ m₁ m₂ : ℝ) (s₁ s₂ : ℤ)
    (himg : img₁ = img₂) (hn : n₁ = n₂) (he : e₁ = e₂) (hpf : pf₁ = pf₂)
    (hm : m₁ = m₂) (hs : s₁ = s₂) :
    scribble_run gen s₁ img₁ n₁ e₁ pf₁ m₁ = scribble_run gen s₂ img₂ n₂ e₂ pf₂ m₂ := by
  subst himg hn he hpf hm hs
  rfl

/-- Witness for C9 at a concrete seed, field and schedule. -/
theorem C9_determinism_witness :
    scribble_run (fun _ _ => 0) 42 [[1, 2], [3, 4]] 3 1 1 (1/2) =
      scribble_run (fun _ _ => 0) 42 [[1, 2], [3, 4]] 3 1 1 (1/2) :=
  C9_determinism (fun _ _ => 0) [[1, 2], [3, 4]] [[1, 2], [3, 4]] 3 3 1 1 1 1
    (1/2) (1/2) 42 42 rfl rfl rfl rfl rfl rfl

/-! ### Claim C10 -/

/-- C10: a pixel whose density value is exactly 0 remains a sampling
candidate for every cutoff, including negative cutoffs: the first mask
writes the marker value 0 onto below-cutoff pixels and the second mask
keeps every pixel equal to 0, so whenever such a pixel's draw passes the
random mask the point is sampled — a cutoff below every pixel value does
not guarantee an empty sampled set if the field contains value-0 pixels. -/
theorem C10_zero_value_candidates (img : List (List ℕ)) (c p : ℝ)
    (rng : ℕ → ℝ) (pos i j : ℕ) (hi : i < img.length)
    (hj : j < (img.getD i []).length) (hv : (img.getD i []).getD j 0 = 0)
    (hr : rng (pos + ((img.take i).map List.length).sum + j) ≤ p) :
    ((j : ℤ), (i : ℤ)) ∈ (get_layer_points c p img rng pos).1 := by
  rw [mem_get_layer_points]
  exact ⟨i, j, hi, hj, rfl, Or.inr hv, hr⟩

/-- Witness for C10: on the 1×1 field `[[0]]` with the negative cutoff
`-5`, the value-0 pixel is still sampled. -/
theorem C10_zero_value_candidates_witness :
    ((0 : ℤ), (0 : ℤ)) ∈ (get_layer_points (-5) 1 [[0]] (fun _ => 0) 0).1 :=
  C10_zero_value_candidates [[0]] (-5) 1 (fun _ => 0) 0 0 0 (by norm_num)
    (by simp) (by simp) (by simp)

end ScribbleArt
